import Mathlib

/-!
Shallow embedding of `queryset_sequence.py` (django-querysetsequence), a Python 2
module that merges several individually ordered sources ("querysets") into one
ordered sequence and layers a pagination window on top.

Modelling conventions:
* an element (a Django model instance) is an `Item`: a finite assignment of
  integer values to attribute names; attribute access (`attrgetter`) is `getattr`;
* Python 2 `cmp` on the values produced by `attrgetter` is `pycmp` on `PyVal`
  (a bare integer, or a tuple of integers when `attrgetter` got several names);
* fallible code (`assert`, `IndexError`) returns `Except String`;
* the CPython dict `values` of `_ordered_iterator`, keyed by per-source
  iterators, is modelled as a list of `Cursor`s carried in the dict's
  `items()` enumeration order. CPython 2.7 enumerates a dict in hash-table
  (address) order, which the language leaves unspecified, so the model takes
  that enumeration as an explicit argument (`ordered_iterator_dict`),
  constrained only to be a permutation of the key set (`cursorsOf`); the
  enumeration is stable for the whole merge because updating an existing key
  keeps its slot, deleting a key never moves the others, and no key is
  inserted after construction — exactly the list operations `mergeNext`
  performs. `ordered_iterator` fixes one admissible enumeration (source
  order) for concrete runs whose outcome does not depend on the order.
  `sorted(..., cmp=..., key=...)` (a stable sort) is modelled by the stable
  monadic insertion sort `sortByM`, and the generator is driven by the
  fuel-indexed `mergeLoop` with fuel `totalSize` (the exact number of steps
  the Python loop can take);
* mutation of attributes is explicit state passing: `_ordered_iterator` returns
  the post-iteration value of `self.order_by` (the code strips `'-'` prefixes
  from that list in place) next to the emitted sequence.
-/

/-- An element held by a source: a finite map from attribute names to integer
values. Stands for a Django model instance; claims only exercise integer-valued
attributes, which Python compares by numeric order. -/
abbrev Item := List (String × Int)

/-- Attribute access on an `Item`, as performed by `operator.attrgetter`.
Missing attributes (Python would raise `AttributeError`) are outside every
claim; they default to `0`. -/
def getattr (i : Item) (f : String) : Int :=
  match i.find? (fun p => p.1 == f) with
  | some p => p.2
  | none => 0

/-- Python 2 `cmp` on two integers. -/
def cmpInt (a b : Int) : Int :=
  if a < b then -1 else if b < a then 1 else 0

/-- A value produced by `attrgetter(*field_names)`: the bare attribute value
for one name, a tuple of attribute values for several names. -/
inductive PyVal where
  | int (n : Int)
  | tuple (ns : List Int)
deriving DecidableEq

/-- Python 2 `cmp` on two tuples: lexicographic, shorter tuple first on a
common prefix. -/
def cmpIntList : List Int → List Int → Int
  | [], [] => 0
  | [], _ :: _ => -1
  | _ :: _, [] => 1
  | x :: xs, y :: ys =>
    let c := cmpInt x y
    if c = 0 then cmpIntList xs ys else c

/-- Python 2 `cmp` on the values `fields_getter` produces. Mixed int/tuple
comparisons follow CPython 2, which orders distinct types by type name
(`'int' < 'tuple'`). -/
def pycmp : PyVal → PyVal → Int
  | .int a, .int b => cmpInt a b
  | .tuple xs, .tuple ys => cmpIntList xs ys
  | .int _, .tuple _ => -1
  | .tuple _, .int _ => 1

/-- Embeds `multiply_iterables` (lines 8-14): element-wise product, guarded by
an `assert` that the lengths agree. -/
def multiply_iterables (it1 it2 : List Int) : Except String (List Int) :=
  if it1.length = it2.length then
    .ok (List.zipWith (· * ·) it1 it2)
  else
    .error "Can not element-wise multiply iterables of different length."

namespace QuerySequence

/-- Embeds `fields_getter` (lines 126-133). `attrgetter(*field_names)` returns
the bare value for a single name and a tuple for several names; the code then
wraps the result in a 1-tuple whenever `len(field_names)` is non-zero, so with
two or more names the result is a 1-tuple holding a tuple. With zero names
`attrgetter()` raises `TypeError`; that case is unreachable because
`_ordered_iterator` only runs when `order_by` is non-empty. -/
def fields_getter (field_names : List String) (i : Item) : List PyVal :=
  match field_names with
  | [] => []
  | [f] => [.int (getattr i f)]
  | _ => [.tuple (field_names.map (getattr i))]

/-- Embeds `comparator` (lines 135-150): multiplies the `cmp` results by the
direction flags and returns the first non-zero entry (`dropwhile(__not__, ...)`),
or `0` when every entry is zero (`StopIteration`). The length `assert` inside
`multiply_iterables` surfaces as an `Except.error`. -/
def comparator (field_names : List String) (reverses : List Int) (i1 i2 : Item) :
    Except String Int :=
  match multiply_iterables
      (List.zipWith pycmp (fields_getter field_names i1) (fields_getter field_names i2))
      reverses with
  | .error e => .error e
  | .ok order =>
    match order.find? (fun v => v != 0) with
    | some v => .ok v
    | none => .ok 0

/-- Embeds lines 119-124: the direction of one `order_by` token. A leading `'-'`
is stripped and flips the sign. (On the empty string `field_name[0]` would raise
`IndexError`; no claim reaches it, the model treats it as ascending.) -/
def strip_desc (fn : String) : String × Int :=
  match fn.data with
  | '-' :: rest => (String.mk rest, -1)
  | _ => (fn, 1)

/-- Merge-internal per-source iteration state: the source's position in the
original list (the dict key, used only for identity), the buffered head
(`values[it]`), and the not-yet-pulled remainder of the source. -/
structure Cursor where
  id : Nat
  head : Item
  rest : List Item
deriving DecidableEq

/-- Number of elements a cursor list still holds (buffered heads included):
the exact number of `yield`s the Python loop has left, used as fuel. -/
def totalSize (cs : List Cursor) : Nat :=
  (cs.map fun c => 1 + c.rest.length).sum

/-- Stable insertion step for `sortByM`; comparison failures abort the sort,
as an exception inside Python's `sorted` would. -/
def insertByM {α : Type} (cmp : α → α → Except String Int) (x : α) :
    List α → Except String (List α)
  | [] => .ok [x]
  | y :: ys =>
    match cmp x y with
    | .error e => .error e
    | .ok c =>
      if c ≤ 0 then .ok (x :: y :: ys)
      else
        match insertByM cmp x ys with
        | .error e => .error e
        | .ok r => .ok (y :: r)

/-- Models `sorted(items, cmp=..., key=...)` (line 160): a stable sort under a
fallible comparator. Python's sort is stable, so any stable sort gives the same
result; errors agree because the comparator used here fails on all pairs or on
none. -/
def sortByM {α : Type} (cmp : α → α → Except String Int) :
    List α → Except String (List α)
  | [] => .ok []
  | x :: xs =>
    match sortByM cmp xs with
    | .error e => .error e
    | .ok r => insertByM cmp x r

/-- Embeds lines 173-181: after the loop, `values.items()[0]` yields the last
cursor's buffered head and then the rest of that source is drained. On an empty
dict (every source was empty) the subscript raises `IndexError`. -/
def mergeTail : List Cursor → Except String (List Item)
  | [] => .error "IndexError: list index out of range"
  | c :: _ => .ok (c.head :: c.rest)

/-- Embeds lines 166-171: after emitting cursor `c`'s head, pull the next
element of that source into the dict slot (`values[qss] = qss.next()`), or
delete the slot when the source is exhausted (`del values[qss]`). -/
def mergeNext (c : Cursor) (cs : List Cursor) : List Cursor :=
  match c.rest with
  | [] => cs.filter fun d => d.id != c.id
  | v :: vs => cs.map fun d => if d.id == c.id then ⟨d.id, v, vs⟩ else d

/-- Embeds the `while len(values) > 1` loop of `_ordered_iterator`
(lines 157-181). Each pass stably sorts the buffered heads, pops the first
(minimal) one, emits it and refills or removes its cursor; with at most one
cursor left, control falls through to `mergeTail`. The fuel only bounds the
number of passes; `_ordered_iterator` supplies `totalSize`, which is enough,
so the `"fuel exhausted"` branch is unreachable from it. -/
def mergeLoop (cmp : Item → Item → Except String Int) :
    Nat → List Cursor → Except String (List Item)
  | 0, cs => if 2 ≤ cs.length then .error "fuel exhausted" else mergeTail cs
  | fuel + 1, cs =>
    if 2 ≤ cs.length then
      match sortByM (fun c1 c2 => cmp c1.head c2.head) cs with
      | .error e => .error e
      | .ok ordered =>
        match ordered with
        | [] => .error "IndexError: list index out of range"
        | c :: _ =>
          match mergeLoop cmp fuel (mergeNext c cs) with
          | .error e => .error e
          | .ok tail => .ok (c.head :: tail)
    else mergeTail cs

/-- Embeds lines 152-155: the key set of the dict `values` — one fresh
iterator per non-empty source (`filter(None, ...)`), each holding its first
element (`it.next()`) and tagged with its source index — listed here in
source order. The dict's `items()` enumeration need not present the keys in
this order; see `ordered_iterator_dict`. -/
def cursorsOf (querysets : List (List Item)) : List Cursor :=
  querysets.enum.filterMap fun p =>
    match p.2 with
    | [] => none
    | v :: rest => some ⟨p.1, v, rest⟩

/-- Embeds `QuerySequence._ordered_iterator` (lines 116-181) as a function of
the dict's `items()` enumeration `ds`. CPython 2.7 enumerates a dict in
hash-table (address) order, which the language leaves unspecified; the only
guarantees are that `ds` is some permutation of the key set (`cursorsOf` of
the sources) and that the enumeration is stable for the whole merge —
updating an existing key (`values[qss] = ...`) keeps its slot, deleting a key
(`del values[qss]`) never moves the others, and no key is inserted after
construction, which is exactly how `mergeNext` treats the list. The function
aliases `field_names = self.order_by` and strips `'-'` prefixes in place, so
the post-iteration value of `self.order_by` — returned as the first
component — is the stripped list. -/
def ordered_iterator_dict (order_by : List String) (ds : List Cursor) :
    List String × Except String (List Item) :=
  let stripped := order_by.map strip_desc
  let field_names := stripped.map Prod.fst
  let reverses := stripped.map Prod.snd
  (field_names, mergeLoop (comparator field_names reverses) (totalSize ds) ds)

/-- One admissible run of `_ordered_iterator`: the dict enumerated in source
order. A property the program is claimed to guarantee must hold for
`ordered_iterator_dict` at every permutation of `cursorsOf querysets`; this
instance serves for concrete evaluations whose outcome is the same under
every admissible enumeration (a crash before anything is emitted, or a run in
which no two heads ever compare equal). -/
def ordered_iterator (order_by : List String) (querysets : List (List Item)) :
    List String × Except String (List Item) :=
  ordered_iterator_dict order_by (cursorsOf querysets)

/-- Embeds `QuerySequence.__iter__` (lines 108-114): plain chaining of the
sources when `order_by` is empty (no comparator is ever consulted on this
path), otherwise the ordered iterator. Returns the post-iteration `order_by`
next to the emitted sequence. -/
def iter (order_by : List String) (querysets : List (List Item)) :
    List String × Except String (List Item) :=
  if order_by.isEmpty then (order_by, .ok querysets.flatten)
  else ordered_iterator order_by querysets

/-- Embeds `QuerySequence.set_limits` (lines 187-206) on the window
`(low_mark, high_mark)`; `none` arguments stand for Python `None` defaults.
The `high` update runs first and the `low` update clamps against the updated
high mark, exactly as in the source. -/
def set_limits (low high : Option Int) (lm : Int) (hm : Option Int) :
    Int × Option Int :=
  let hm2 : Option Int :=
    match high with
    | some h =>
      match hm with
      | some hm0 => some (min hm0 (lm + h))
      | none => some (lm + h)
    | none => hm
  let lm2 : Int :=
    match low with
    | some l =>
      match hm2 with
      | some h0 => min h0 (lm + l)
      | none => lm + l
    | none => lm
  (lm2, hm2)

/-- Embeds `QuerySequence.can_filter` (lines 214-220): `not self.low_mark and
self.high_mark is None`. -/
def can_filter (lm : Int) (hm : Option Int) : Bool :=
  (lm == 0) && hm.isNone

/-- Window invariant of the spec: `low_mark` is non-negative and `high_mark`,
when present, is at least `low_mark`. -/
def windowInv (lm : Int) (hm : Option Int) : Bool :=
  decide (0 ≤ lm) &&
    match hm with
    | some h => decide (lm ≤ h)
    | none => true

/-- States that an optional `set_limits` argument is non-negative when given. -/
def optNonneg (o : Option Int) : Bool :=
  match o with
  | some x => decide (0 ≤ x)
  | none => true

/-- Denotation of a window: the set of element positions it selects,
`low_mark ≤ n` and `n < high_mark` when a high mark is present. -/
def inWindow (lm : Int) (hm : Option Int) (n : Int) : Bool :=
  decide (lm ≤ n) &&
    match hm with
    | some h => decide (n < h)
    | none => true

/-- Window states reachable through the coordinator's API: the initial window
`(0, unbounded)` set by `__init__` (lines 25-32), `set_limits` with
non-negative arguments, and `clear_limits` (lines 208-212). -/
inductive ReachableWindow : Int × Option Int → Prop
  | init : ReachableWindow (0, none)
  | step (w : Int × Option Int) (low high : Option Int)
      (hl : optNonneg low = true) (hh : optNonneg high = true)
      (hw : ReachableWindow w) :
      ReachableWindow (set_limits low high w.1 w.2)
  | clear (w : Int × Option Int) (hw : ReachableWindow w) :
      ReachableWindow (0, none)

/-- Value of the composite comparison for a single-field spec: Python `cmp` on
the attribute, times the direction flag. `comparator [f] [r]` always succeeds
and returns exactly this value (`comparator_single` below); with two or more
fields it always fails instead. -/
def gfield (f : String) (r : Int) (i1 i2 : Item) : Int :=
  cmpInt (getattr i1 f) (getattr i2 f) * r

/-- State of one `QuerySequence` object: the fields set by `__init__`
(lines 25-32). -/
structure QSState where
  querysets : List (List Item)
  filter_is_sticky : Bool
  order_by : List String
  low_mark : Int
  high_mark : Option Int
deriving DecidableEq

/-- Observable fields of a coordinator that the clone-isolation contract talks
about: the `order_by` list and the `(low_mark, high_mark)` window. -/
def observables (st : QSState) : List String × Int × Option Int :=
  (st.order_by, st.low_mark, st.high_mark)

/-- Heap of `QuerySequence` objects: Python attribute mutation is modelled by
updating the cell an object reference points to; `next` is the next fresh
address for `clone`'s allocation. -/
structure QSWorld where
  heap : Nat → QSState
  next : Nat

/-- Embeds `QuerySequence.clone` (lines 70-84): allocates a fresh object whose
state copies the original's — `_querysets` is rebuilt from per-source
`_clone()`s and `order_by[:]` is a list copy, so with value semantics inside a
cell the copied state equals the source state; independence comes from the
fresh address. -/
def clone (w : QSWorld) (r : Nat) : QSWorld × Nat :=
  (⟨fun i => if i = w.next then w.heap r else w.heap i, w.next + 1⟩, w.next)

/-- Embeds `QuerySequence.add_ordering` (lines 90-98) as a heap update:
each source is replaced by its reordered copy (Django's `qs.order_by`,
an external collaborator, is the parameter `g`), and `order_by` is extended
in place when `ordering` is non-empty. -/
def add_ordering (g : List String → List Item → List Item)
    (w : QSWorld) (r : Nat) (ordering : List String) : QSWorld :=
  { w with
    heap := fun i =>
      if i = r then
        let st := w.heap i
        { st with
          querysets := st.querysets.map (g ordering),
          order_by := if ordering.isEmpty then st.order_by else st.order_by ++ ordering }
      else w.heap i }

/-- Embeds `QuerySequence.set_limits` as a heap update on the object's
`low_mark`/`high_mark` attributes. -/
def set_limits_at (w : QSWorld) (r : Nat) (low high : Option Int) : QSWorld :=
  { w with
    heap := fun i =>
      if i = r then
        let st := w.heap i
        { st with
          low_mark := (set_limits low high st.low_mark st.high_mark).1,
          high_mark := (set_limits low high st.low_mark st.high_mark).2 }
      else w.heap i }

end QuerySequence

namespace QuerySetSequence

/-- Result of `_simplify` (lines 277-290): the `EmptyQuerySet()` marker, a single
bare queryset, or the whole `QuerySetSequence` (carrying its transformed source
list). -/
inductive SimplifyResult where
  | empty
  | single (qs : List Item)
  | sequence (qss : List (List Item))
deriving DecidableEq

/-- Embeds `QuerySetSequence._simplify` (lines 277-290): counts the non-empty
querysets (`filter(None, ...)`) and collapses to the empty marker or the lone
non-empty queryset when fewer than two remain. -/
def simplify (querysets : List (List Item)) : SimplifyResult :=
  match querysets.filter (fun q => !q.isEmpty) with
  | [] => .empty
  | [q] => .single q
  | _ => .sequence querysets

/-- Embeds `QuerySetSequence._filter_or_exclude` (lines 260-275). `hasArgs`
models `args or kwargs`; only then is `can_filter` asserted. `t` is the
per-source Django `_filter_or_exclude` (an external collaborator) applied to
each source of a clone; the result is then simplified. -/
def filter_or_exclude (t : List Item → List Item) (hasArgs : Bool)
    (st : QuerySequence.QSState) : Except String SimplifyResult :=
  if hasArgs && !(QuerySequence.can_filter st.low_mark st.high_mark) then
    .error "Cannot filter a query once a slice has been taken."
  else
    .ok (simplify (st.querysets.map t))

end QuerySetSequence

namespace QuerySequence

/-- C2: the claim says the composite comparator compares field by field and in
particular works for OrderSpecs with two or more fields. The code's own comment
(lines 129-131) wants a tuple of per-field values, but the wrap fires for every
non-empty field list, so with two fields `map(cmp, ...)` yields one nested-tuple
comparison while `reverses` has two entries and the `assert` in
`multiply_iterables` fires: the comparator raises instead of returning the first
non-zero per-field comparison (here `-1` from field `b`). -/
theorem two_field_comparator_raises :
    comparator ["a", "b"] [1, 1] [("a", 1), ("b", 1)] [("a", 1), ("b", 2)]
      = .error "Can not element-wise multiply iterables of different length." := rfl

/-- C1: the claim quantifies over every OrderSpec, but for any OrderSpec with
two or more fields the merge crashes with the `multiply_iterables` assertion
(see `two_field_comparator_raises`) instead of producing the sorted
concatenation: here the two singleton sources (trivially pre-sorted by
`['a', 'b']`) should merge to their 2-element sorted concatenation, yet
iteration errors out. -/
theorem two_field_merge_raises :
    iter ["a", "b"] [[[("a", 1), ("b", 1)]], [[("a", 1), ("b", 2)]]]
      = (["a", "b"],
          .error "Can not element-wise multiply iterables of different length.") := rfl

/-- C4: the claim says ordered iteration leaves `order_by` unchanged. The code
aliases `field_names = self.order_by` and strips the `'-'` prefix in place
(line 124), so after one consumed iteration over sources pre-sorted descending
the coordinator's `order_by` is `["a"]`, not `["-a"]`; a second iteration then
merges ascending over the still-descending sources and emits a different
sequence. -/
theorem ordered_iterator_strips_order_by :
    ordered_iterator ["-a"] [[[("a", 30)], [("a", 10)]], [[("a", 20)]]]
        = (["a"], .ok [[("a", 30)], [("a", 20)], [("a", 10)]])
      ∧ ordered_iterator ["a"] [[[("a", 30)], [("a", 10)]], [[("a", 20)]]]
        = (["a"], .ok [[("a", 20)], [("a", 30)], [("a", 10)]])
      ∧ (["a"] : List String) ≠ ["-a"] :=
  ⟨rfl, rfl, by decide⟩

/-- C5: with an empty OrderSpec, `__iter__` returns `chain(*self._querysets)`:
iteration is exactly the concatenation of the sources in list order, each in
its own native order, and the comparator machinery is never consulted on this
path. -/
theorem iter_empty_order_concatenates (querysets : List (List Item)) :
    iter [] querysets = ([], .ok querysets.flatten) := rfl

/-- C6: a `set_limits` call with non-negative arguments (where given), applied
to a window satisfying the documented invariant, only narrows the window: every
position selected by the new window was selected by the window immediately
before the call. -/
theorem set_limits_narrows (lm : Int) (hm : Option Int) (low high : Option Int)
    (hinv : windowInv lm hm = true)
    (hl : optNonneg low = true) (hh : optNonneg high = true) (n : Int)
    (hn : inWindow (set_limits low high lm hm).1 (set_limits low high lm hm).2 n = true) :
    inWindow lm hm n = true := by
  cases low <;> cases high <;> cases hm <;>
    simp [set_limits, windowInv, optNonneg, inWindow] at * <;> omega

/-- Witness for `set_limits_narrows` at the concrete call
`set_limits(low=2, high=5)` on the default window and position 3. -/
theorem set_limits_narrows_witness : inWindow 0 none 3 = true :=
  set_limits_narrows 0 none (some 2) (some 5) rfl rfl rfl 3 (by decide)

/-- Preservation half of the window invariant: one `set_limits` call with
non-negative arguments keeps `0 ≤ low_mark ≤ high_mark`. -/
lemma set_limits_inv (lm : Int) (hm : Option Int) (low high : Option Int)
    (hinv : windowInv lm hm = true) (hl : optNonneg low = true)
    (hh : optNonneg high = true) :
    windowInv (set_limits low high lm hm).1 (set_limits low high lm hm).2 = true := by
  cases low <;> cases high <;> cases hm <;>
    simp [set_limits, windowInv, optNonneg] at * <;> omega

/-- C7: in every window state reachable through `__init__`, `set_limits` with
non-negative arguments, and `clear_limits`, the low mark is non-negative and
the high mark, when present, is at least the low mark. -/
theorem reachable_window_invariant (w : Int × Option Int) (hw : ReachableWindow w) :
    windowInv w.1 w.2 = true := by
  induction hw with
  | init => rfl
  | step w low high hl hh hw ih => exact set_limits_inv w.1 w.2 low high ih hl hh
  | clear w hw ih => rfl

/-- Witness for `reachable_window_invariant` on the state reached by
`set_limits(low=2, high=5)` from the initial window. -/
theorem reachable_window_invariant_witness :
    windowInv (set_limits (some 2) (some 5) 0 none).1
      (set_limits (some 2) (some 5) 0 none).2 = true :=
  reachable_window_invariant (set_limits (some 2) (some 5) 0 none)
    (ReachableWindow.step (0, none) (some 2) (some 5) rfl rfl ReachableWindow.init)

end QuerySequence

namespace QuerySetSequence

/-- C9 counterexample: the claim says every filter/exclude attempted while
`can_filter()` is false is rejected. But `_filter_or_exclude` only asserts
`can_filter` when `args or kwargs` is non-empty (line 265), so a no-argument
`filter()` on a sliced coordinator (here `low_mark = 5`) is accepted and
silently proceeds to simplification instead of failing. -/
theorem filter_no_args_accepted :
    QuerySequence.can_filter 5 none = false
      ∧ filter_or_exclude (fun q => q) false
          ⟨[[[("a", 1)]]], false, [], 5, none⟩ = .ok (.single [[("a", 1)]]) :=
  ⟨rfl, rfl⟩

/-- C9 (amended): every filter/exclude that passes at least one predicate
argument, attempted while `can_filter()` is false, fails with the
filter-after-slice assertion and is surfaced to the caller as an error. -/
theorem filter_args_rejected (t : List Item → List Item) (st : QuerySequence.QSState)
    (h : QuerySequence.can_filter st.low_mark st.high_mark = false) :
    filter_or_exclude t true st
      = .error "Cannot filter a query once a slice has been taken." := by
  simp [filter_or_exclude, h]

/-- Witness for `filter_args_rejected`: an argument-carrying filter on a
coordinator sliced to `low_mark = 5` errors out. -/
theorem filter_args_rejected_witness :
    filter_or_exclude (fun q => q) true ⟨[], false, [], 5, none⟩
      = .error "Cannot filter a query once a slice has been taken." :=
  filter_args_rejected (fun q => q) ⟨[], false, [], 5, none⟩ rfl

/-- C10: `_simplify` returns the empty marker when no queryset is non-empty,
the lone bare queryset when exactly one is non-empty, and the coordinator
(with its transformed source list) when two or more are non-empty. -/
theorem simplify_cases (qss : List (List Item)) :
    (qss.filter (fun q => !q.isEmpty) = [] → simplify qss = .empty)
      ∧ (∀ q, qss.filter (fun q => !q.isEmpty) = [q] → simplify qss = .single q)
      ∧ (2 ≤ (qss.filter (fun q => !q.isEmpty)).length → simplify qss = .sequence qss) := by
  refine ⟨fun h => ?_, fun q h => ?_, fun h => ?_⟩
  · simp [simplify, h]
  · simp [simplify, h]
  · rcases e : qss.filter (fun q => !q.isEmpty) with _ | ⟨q1, _ | ⟨q2, rest⟩⟩
    · rw [e] at h; simp at h
    · rw [e] at h; simp at h
    · simp [simplify, e]

/-- Witness for `simplify_cases`: two non-empty sources out of three keep the
coordinator. -/
theorem simplify_cases_witness :
    simplify [[[("a", 1)]], [], [[("b", 2)]]]
      = .sequence [[[("a", 1)]], [], [[("b", 2)]]] :=
  (simplify_cases [[[("a", 1)]], [], [[("b", 2)]]]).2.2 (by decide)

end QuerySetSequence

namespace QuerySequence

/-- C8: clone isolation. `clone` hands out a fresh heap address holding a copy
of the original's state, so mutating the clone through `add_ordering` or
`set_limits` leaves the original's `order_by` and window untouched, and
mutating the original leaves the clone's untouched. -/
theorem clone_isolation (g : List String → List Item → List Item)
    (w : QSWorld) (r : Nat) (ordering : List String) (low high : Option Int)
    (hr : r < w.next) :
    observables ((add_ordering g (clone w r).1 (clone w r).2 ordering).heap r)
        = observables (w.heap r)
      ∧ observables ((set_limits_at (clone w r).1 (clone w r).2 low high).heap r)
        = observables (w.heap r)
      ∧ observables ((add_ordering g (clone w r).1 r ordering).heap (clone w r).2)
        = observables ((clone w r).1.heap (clone w r).2)
      ∧ observables ((set_limits_at (clone w r).1 r low high).heap (clone w r).2)
        = observables ((clone w r).1.heap (clone w r).2) := by
  have hne : r ≠ w.next := Nat.ne_of_lt hr
  refine ⟨?_, ?_, ?_, ?_⟩ <;>
    simp [clone, add_ordering, set_limits_at, hne, Ne.symm hne]

/-- Witness for `clone_isolation` on a one-object world. -/
theorem clone_isolation_witness :
    observables ((add_ordering (fun _ q => q)
          (clone ⟨fun _ => ⟨[], false, [], 0, none⟩, 1⟩ 0).1
          (clone ⟨fun _ => ⟨[], false, [], 0, none⟩, 1⟩ 0).2 ["x"]).heap 0)
        = observables ((⟨fun _ => ⟨[], false, [], 0, none⟩, 1⟩ : QSWorld).heap 0)
      ∧ observables ((set_limits_at
          (clone ⟨fun _ => ⟨[], false, [], 0, none⟩, 1⟩ 0).1
          (clone ⟨fun _ => ⟨[], false, [], 0, none⟩, 1⟩ 0).2 (some 1) (some 2)).heap 0)
        = observables ((⟨fun _ => ⟨[], false, [], 0, none⟩, 1⟩ : QSWorld).heap 0)
      ∧ observables ((add_ordering (fun _ q => q)
          (clone ⟨fun _ => ⟨[], false, [], 0, none⟩, 1⟩ 0).1 0 ["x"]).heap
            (clone ⟨fun _ => ⟨[], false, [], 0, none⟩, 1⟩ 0).2)
        = observables ((clone ⟨fun _ => ⟨[], false, [], 0, none⟩, 1⟩ 0).1.heap
            (clone ⟨fun _ => ⟨[], false, [], 0, none⟩, 1⟩ 0).2)
      ∧ observables ((set_limits_at
          (clone ⟨fun _ => ⟨[], false, [], 0, none⟩, 1⟩ 0).1 0 (some 1) (some 2)).heap
            (clone ⟨fun _ => ⟨[], false, [], 0, none⟩, 1⟩ 0).2)
        = observables ((clone ⟨fun _ => ⟨[], false, [], 0, none⟩, 1⟩ 0).1.heap
            (clone ⟨fun _ => ⟨[], false, [], 0, none⟩, 1⟩ 0).2) :=
  clone_isolation (fun _ q => q) ⟨fun _ => ⟨[], false, [], 0, none⟩, 1⟩ 0 ["x"]
    (some 1) (some 2) (by decide)

end QuerySequence

namespace QuerySequence

/-- Totality of the comparator on single-field specs: it never raises and
computes `cmp` on the attribute times the direction flag. -/
lemma comparator_single (f : String) (r : Int) (i1 i2 : Item) :
    comparator [f] [r] i1 i2 = .ok (gfield f r i1 i2) := by
  by_cases h : cmpInt (getattr i1 f) (getattr i2 f) * r = 0
  · simp [comparator, fields_getter, multiply_iterables, pycmp, gfield, List.find?, h]
  · have hbne : (cmpInt (getattr i1 f) (getattr i2 f) * r != 0) = true := by
      simpa using h
    simp [comparator, fields_getter, multiply_iterables, pycmp, gfield, List.find?, hbne]

/-- With a total comparator, the monadic insertion step agrees with Mathlib's
`List.orderedInsert` under the "compares at most zero" relation. -/
lemma insertByM_ok {α : Type} (cmp : α → α → Except String Int) (g : α → α → Int)
    (hc : ∀ a b, cmp a b = .ok (g a b)) (x : α) (l : List α) :
    insertByM cmp x l = .ok (List.orderedInsert (fun a b => g a b ≤ 0) x l) := by
  induction l with
  | nil => rfl
  | cons y ys ih =>
    rw [insertByM, hc, ih]
    by_cases h : g x y ≤ 0
    · simp [List.orderedInsert, h]
    · simp [List.orderedInsert, h]

/-- With a total comparator, the model of Python's stable `sorted` agrees with
Mathlib's stable `List.insertionSort`. -/
lemma sortByM_ok {α : Type} (cmp : α → α → Except String Int) (g : α → α → Int)
    (hc : ∀ a b, cmp a b = .ok (g a b)) (l : List α) :
    sortByM cmp l = .ok (List.insertionSort (fun a b => g a b ≤ 0) l) := by
  induction l with
  | nil => rfl
  | cons x xs ih =>
    rw [sortByM, ih]
    simpa [List.insertionSort] using insertByM_ok cmp g hc x (List.insertionSort _ xs)

/-- Inserting an element related to everything in the list puts it in front. -/
lemma orderedInsert_cons_of_min {α : Type} (r : α → α → Prop) [DecidableRel r]
    (x : α) (l : List α) (h : ∀ c ∈ l, r x c) :
    List.orderedInsert r x l = x :: l := by
  cases l with
  | nil => rfl
  | cons y ys => simp [List.orderedInsert, h y (List.mem_cons_self y ys)]

/-- Stability of insertion sort, in the form the tie-break claim needs: if `x`
is related to every element and no earlier element is related to `x`, then the
sorted list starts with `x` — the first minimal element wins. -/
lemma insertionSort_first_min {α : Type} (r : α → α → Prop) [DecidableRel r] :
    ∀ (pre : List α) (x : α) (suf : List α),
      (∀ c ∈ pre, ¬ r c x) → (∀ c ∈ pre ++ x :: suf, r x c) →
      ∃ t, List.insertionSort r (pre ++ x :: suf) = x :: t
  | [], x, suf, _, hmin => by
    refine ⟨List.insertionSort r suf, ?_⟩
    simp only [List.nil_append, List.insertionSort]
    exact orderedInsert_cons_of_min r x _ (fun c hc =>
      hmin c (List.mem_cons_of_mem x ((List.mem_insertionSort r).mp hc)))
  | p :: pre, x, suf, hpre, hmin => by
    obtain ⟨t, ht⟩ := insertionSort_first_min r pre x suf
      (fun c hc => hpre c (List.mem_cons_of_mem p hc))
      (fun c hc => hmin c (List.mem_cons_of_mem p hc))
    refine ⟨List.orderedInsert r p t, ?_⟩
    have hp : ¬ r p x := hpre p (List.mem_cons_self p pre)
    have hstep : List.insertionSort r ((p :: pre) ++ x :: suf)
        = List.orderedInsert r p (List.insertionSort r (pre ++ x :: suf)) := rfl
    rw [hstep, ht, List.orderedInsert, if_neg hp]

/-- Filtering by a predicate every element satisfies keeps the list intact. -/
lemma map_eq_of_fixed {l : List Cursor} {fc : Cursor → Cursor}
    (h : ∀ d ∈ l, fc d = d) : l.map fc = l := by
  induction l with
  | nil => rfl
  | cons x xs ih =>
    rw [List.map_cons, h x (List.mem_cons_self x xs),
      ih fun d hd => h d (List.mem_cons_of_mem x hd)]

/-- A cursor whose id is unique in the list splits it into a prefix and suffix
free of that id. -/
lemma split_of_mem_nodup {cs : List Cursor} {c : Cursor} (hm : c ∈ cs)
    (hnd : (cs.map Cursor.id).Nodup) :
    ∃ a b, cs = a ++ c :: b ∧ (∀ d ∈ a, d.id ≠ c.id) ∧ (∀ d ∈ b, d.id ≠ c.id) := by
  obtain ⟨a, b, rfl⟩ := List.append_of_mem hm
  rw [List.map_append, List.map_cons] at hnd
  obtain ⟨hna, hncb, hdisj⟩ := List.nodup_append.mp hnd
  refine ⟨a, b, rfl, ?_, ?_⟩
  · intro d hd he
    exact hdisj (List.mem_map_of_mem Cursor.id hd)
      (by rw [he]; exact List.mem_cons_self _ _)
  · intro d hd he
    exact (List.nodup_cons.mp hncb).1 (by rw [← he]; exact List.mem_map_of_mem Cursor.id hd)

@[simp] lemma totalSize_nil : totalSize [] = 0 := rfl

@[simp] lemma totalSize_cons (c : Cursor) (cs : List Cursor) :
    totalSize (c :: cs) = 1 + c.rest.length + totalSize cs := by
  simp [totalSize, Nat.add_assoc]

@[simp] lemma totalSize_append (a b : List Cursor) :
    totalSize (a ++ b) = totalSize a + totalSize b := by
  simp [totalSize]

/-- Every live cursor holds at least its buffered head. -/
lemma length_le_totalSize (cs : List Cursor) : cs.length ≤ totalSize cs := by
  induction cs with
  | nil => simp
  | cons c cs ih =>
    simp only [List.length_cons, totalSize_cons]
    omega

/-- Effect of one refill-or-remove step on the cursor list: one element is
consumed, at most one cursor disappears, and the ids stay distinct. -/
lemma mergeNext_facts {cs : List Cursor} {c : Cursor} (hm : c ∈ cs)
    (hnd : (cs.map Cursor.id).Nodup) :
    totalSize (mergeNext c cs) + 1 = totalSize cs
      ∧ cs.length ≤ (mergeNext c cs).length + 1
      ∧ ((mergeNext c cs).map Cursor.id).Nodup := by
  obtain ⟨a, b, hsplit, ha, hb⟩ := split_of_mem_nodup hm hnd
  subst hsplit
  cases hr : c.rest with
  | nil =>
    have h1 : mergeNext c (a ++ c :: b) = a ++ b := by
      rw [mergeNext, hr, List.filter_append, List.filter_cons]
      simp only [bne_self_eq_false, Bool.false_eq_true, if_false]
      rw [List.filter_eq_self.mpr fun d hd => by simpa using ha d hd,
        List.filter_eq_self.mpr fun d hd => by simpa using hb d hd]
    rw [h1]
    refine ⟨by simp [hr]; omega, by simp only [List.length_append, List.length_cons]; omega, ?_⟩
    have hsub : List.Sublist ((a ++ b).map Cursor.id) ((a ++ c :: b).map Cursor.id) :=
      ((List.sublist_cons_self c b).append_left a).map Cursor.id
    exact hnd.sublist hsub
  | cons v vs =>
    have h1 : mergeNext c (a ++ c :: b)
        = a ++ (⟨c.id, v, vs⟩ : Cursor) :: b := by
      rw [mergeNext, hr]
      dsimp only
      rw [List.map_append, List.map_cons]
      rw [map_eq_of_fixed fun d hd => by simp [ha d hd],
        map_eq_of_fixed fun d hd => by simp [hb d hd]]
      simp
    rw [h1]
    refine ⟨by simp [hr]; omega,
      by simp only [List.length_append, List.length_cons]; omega, ?_⟩
    have : ((a ++ (⟨c.id, v, vs⟩ : Cursor) :: b).map Cursor.id)
        = ((a ++ c :: b).map Cursor.id) := by simp
    rw [this]
    exact hnd

end QuerySequence

namespace QuerySequence

/-- With a single cursor left, the loop is skipped and the tail phase drains
that source, regardless of remaining fuel. -/
lemma mergeLoop_single (cmp : Item → Item → Except String Int) (fuel : Nat)
    (c : Cursor) : mergeLoop cmp fuel [c] = .ok (c.head :: c.rest) := by
  cases fuel <;> rfl

/-- Unfolding of one successful loop pass: with at least two cursors and the
stable sort returning `c` first, the pass emits `c`'s head in front of the
recursive merge of the refilled cursor list. -/
lemma mergeLoop_succ_of_sorted (cmp : Item → Item → Except String Int)
    (fuel : Nat) (cs : List Cursor) (c : Cursor) (t : List Cursor)
    (h2 : 2 ≤ cs.length)
    (hs : sortByM (fun c1 c2 => cmp c1.head c2.head) cs = .ok (c :: t)) :
    mergeLoop cmp (fuel + 1) cs =
      match mergeLoop cmp fuel (mergeNext c cs) with
      | .error e => .error e
      | .ok tail => .ok (c.head :: tail) := by
  rw [mergeLoop, if_pos h2, hs]

/-- Totality of the merge under a comparator that never raises: starting from
at least one cursor with pairwise distinct ids and fuel at least `totalSize`,
the loop terminates successfully. -/
lemma mergeLoop_total (cmp : Item → Item → Except String Int)
    (g0 : Item → Item → Int) (hc : ∀ i1 i2, cmp i1 i2 = .ok (g0 i1 i2)) :
    ∀ (fuel : Nat) (cs : List Cursor), cs ≠ [] → (cs.map Cursor.id).Nodup →
      totalSize cs ≤ fuel + 1 →
      ∃ out, mergeLoop cmp fuel cs = .ok out := by
  intro fuel
  induction fuel with
  | zero =>
    intro cs hne hnd hfuel
    match cs with
    | [] => exact absurd rfl hne
    | [c] => exact ⟨c.head :: c.rest, mergeLoop_single cmp 0 c⟩
    | c1 :: c2 :: rest =>
      exfalso
      have h := length_le_totalSize (c1 :: c2 :: rest)
      simp only [List.length_cons] at h
      omega
  | succ fuel ih =>
    intro cs hne hnd hfuel
    by_cases h2 : 2 ≤ cs.length
    · have hsort := sortByM_ok (fun c1 c2 => cmp c1.head c2.head)
        (fun c1 c2 => g0 c1.head c2.head) (fun a b => hc a.head b.head) cs
      have hperm := List.perm_insertionSort
        (fun a b : Cursor => g0 a.head b.head ≤ 0) cs
      have hlen : (List.insertionSort
          (fun a b : Cursor => g0 a.head b.head ≤ 0) cs).length = cs.length :=
        hperm.length_eq
      cases e : List.insertionSort (fun a b : Cursor => g0 a.head b.head ≤ 0) cs with
      | nil =>
        exfalso
        rw [e] at hlen
        simp at hlen
        omega
      | cons c t =>
        have hcm : c ∈ cs := hperm.mem_iff.mp (e ▸ List.mem_cons_self c t)
        obtain ⟨hts, hlen2, hnd2⟩ := mergeNext_facts hcm hnd
        have hne2 : mergeNext c cs ≠ [] := by
          intro hnil
          rw [hnil] at hlen2
          simp at hlen2
          omega
        obtain ⟨out, hout⟩ := ih (mergeNext c cs) hne2 hnd2 (by omega)
        refine ⟨c.head :: out, ?_⟩
        have hs : sortByM (fun c1 c2 => cmp c1.head c2.head) cs = .ok (c :: t) :=
          hsort.trans (congrArg Except.ok e)
        rw [mergeLoop_succ_of_sorted cmp fuel cs c t h2 hs, hout]
    · match cs with
      | [] => exact absurd rfl hne
      | [c] => exact ⟨c.head :: c.rest, mergeLoop_single cmp (fuel + 1) c⟩
      | c1 :: c2 :: rest => exact absurd (by simp) h2

/-- Python 2 `cmp` of a value with itself is zero. -/
lemma cmpInt_self (a : Int) : cmpInt a a = 0 := by
  simp [cmpInt]

/-- Python 2 `cmp` is antisymmetric. -/
lemma cmpInt_antisymm (a b : Int) : cmpInt a b = -cmpInt b a := by
  simp only [cmpInt]
  split_ifs <;> omega

/-- The single-field composite comparison of a head with itself is zero. -/
lemma gfield_self (f : String) (r : Int) (x : Item) : gfield f r x x = 0 := by
  simp [gfield, cmpInt_self]

/-- The single-field composite comparison is antisymmetric. -/
lemma gfield_antisymm (f : String) (r : Int) (x y : Item) :
    gfield f r x y = -gfield f r y x := by
  unfold gfield
  rw [cmpInt_antisymm]
  ring

/-- C3 (amended): on a tie among buffered heads, the merge emits the head that
comes first in the dict's `items()` enumeration order — an order CPython 2.7
leaves unspecified (hash/address-based) and which need not be source order —
so the emitted sequence is a function of that enumeration, not of the source
list and OrderSpec alone. Here `ci` precedes the tied `cj` in the enumeration
`pre ++ ci :: (mid ++ cj :: post)`, every cursor enumerated before `ci`
compares strictly greater, and `ci` compares at most equal to the remaining
heads; the first emitted element is `ci`'s head. The original
lowest-source-index reading is refuted by `merge_tie_not_source_index`. -/
theorem merge_tie_enumeration_order (f : String) (r : Int)
    (pre mid post : List Cursor) (ci cj : Cursor) (fuel : Nat)
    (hfuel : totalSize (pre ++ ci :: (mid ++ cj :: post)) ≤ fuel + 1)
    (hnd : ((pre ++ ci :: (mid ++ cj :: post)).map Cursor.id).Nodup)
    (hpre : ∀ c ∈ pre, ∀ v, comparator [f] [r] c.head ci.head = .ok v → 0 < v)
    (hrest : ∀ c ∈ mid ++ post, ∀ v,
      comparator [f] [r] ci.head c.head = .ok v → v ≤ 0)
    (htie : comparator [f] [r] ci.head cj.head = .ok 0) :
    ∃ out, mergeLoop (comparator [f] [r]) fuel (pre ++ ci :: (mid ++ cj :: post))
      = .ok (ci.head :: out) := by
  have hgtie : gfield f r ci.head cj.head = 0 :=
    Except.ok.inj ((comparator_single f r ci.head cj.head).symm.trans htie)
  have hming : ∀ c ∈ pre ++ ci :: (mid ++ cj :: post),
      gfield f r ci.head c.head ≤ 0 := by
    intro c hcmem
    rcases List.mem_append.mp hcmem with hcp | hcr
    · have hg := hpre c hcp (gfield f r c.head ci.head) (comparator_single f r _ _)
      have ha := gfield_antisymm f r ci.head c.head
      omega
    · rcases List.mem_cons.mp hcr with rfl | hcr2
      · exact (gfield_self f r _).le
      · rcases List.mem_append.mp hcr2 with hcm | hcj2
        · exact hrest c (List.mem_append.mpr (Or.inl hcm)) _
            (comparator_single f r _ _)
        · rcases List.mem_cons.mp hcj2 with rfl | hcp2
          · exact hgtie.le
          · exact hrest c (List.mem_append.mpr (Or.inr hcp2)) _
              (comparator_single f r _ _)
  have h2 : 2 ≤ (pre ++ ci :: (mid ++ cj :: post)).length := by
    simp only [List.length_append, List.length_cons]
    omega
  have hflen : 2 ≤ totalSize (pre ++ ci :: (mid ++ cj :: post)) :=
    le_trans h2 (length_le_totalSize _)
  obtain ⟨fl, rfl⟩ : ∃ fl, fuel = fl + 1 := ⟨fuel - 1, by omega⟩
  have hc : ∀ a b : Cursor, comparator [f] [r] a.head b.head
      = .ok (gfield f r a.head b.head) :=
    fun a b => comparator_single f r a.head b.head
  have hsort : sortByM (fun c1 c2 => comparator [f] [r] c1.head c2.head)
      (pre ++ ci :: (mid ++ cj :: post))
      = .ok (List.insertionSort (fun a b : Cursor => gfield f r a.head b.head ≤ 0)
          (pre ++ ci :: (mid ++ cj :: post))) :=
    sortByM_ok _ _ hc _
  obtain ⟨t, ht⟩ := insertionSort_first_min
    (fun a b : Cursor => gfield f r a.head b.head ≤ 0) pre ci (mid ++ cj :: post)
    (fun c hc2 => by
      have hv := hpre c hc2 (gfield f r c.head ci.head) (comparator_single f r _ _)
      omega)
    hming
  have hs : sortByM (fun c1 c2 => comparator [f] [r] c1.head c2.head)
      (pre ++ ci :: (mid ++ cj :: post)) = .ok (ci :: t) :=
    hsort.trans (congrArg Except.ok ht)
  have hcm : ci ∈ pre ++ ci :: (mid ++ cj :: post) :=
    List.mem_append.mpr (Or.inr (List.mem_cons_self _ _))
  obtain ⟨hts, hlen2, hnd2⟩ := mergeNext_facts hcm hnd
  have hne2 : mergeNext ci (pre ++ ci :: (mid ++ cj :: post)) ≠ [] := by
    intro hnil
    rw [hnil] at hlen2
    simp only [List.length_nil] at hlen2
    omega
  obtain ⟨out, hout⟩ := mergeLoop_total (comparator [f] [r]) (gfield f r)
    (comparator_single f r) fl (mergeNext ci (pre ++ ci :: (mid ++ cj :: post)))
    hne2 hnd2 (by omega)
  refine ⟨out, ?_⟩
  rw [mergeLoop_succ_of_sorted (comparator [f] [r]) fl _ ci t h2 hs, hout]

end QuerySequence

namespace QuerySequence

/-- C3 counterexample: the claimed lowest-source-index tie-break and the
determinism it entails fail on the code. With two singleton sources tied on
field `a`, the enumeration listing source 1's cursor before source 0's is an
admissible `items()` order — a permutation of the dict's key set (third
conjunct) — and under it the merge emits source 1's head first, while the
source-order enumeration emits source 0's head first: on a tie the output is
not determined by the source list and the OrderSpec, and the lowest source
index does not win in every admissible run. -/
theorem merge_tie_not_source_index :
    ordered_iterator_dict ["a"]
        [(⟨1, [("a", 1), ("n", 1)], []⟩ : Cursor), ⟨0, [("a", 1), ("n", 0)], []⟩]
      = (["a"], .ok [[("a", 1), ("n", 1)], [("a", 1), ("n", 0)]])
    ∧ ordered_iterator ["a"] [[[("a", 1), ("n", 0)]], [[("a", 1), ("n", 1)]]]
      = (["a"], .ok [[("a", 1), ("n", 0)], [("a", 1), ("n", 1)]])
    ∧ List.Perm
        [(⟨1, [("a", 1), ("n", 1)], []⟩ : Cursor), ⟨0, [("a", 1), ("n", 0)], []⟩]
        (cursorsOf [[[("a", 1), ("n", 0)]], [[("a", 1), ("n", 1)]]])
    ∧ ([[("a", 1), ("n", 1)], [("a", 1), ("n", 0)]] : List Item)
      ≠ [[("a", 1), ("n", 0)], [("a", 1), ("n", 1)]] :=
  ⟨rfl, rfl, by decide, by decide⟩

/-- Witness for `merge_tie_enumeration_order`: a dict enumeration that lists
source 1's cursor before source 0's, heads tied on `a`; the merge emits the
enumeration-first head, which belongs to the higher-index source. -/
theorem merge_tie_enumeration_order_witness :
    ∃ out, mergeLoop (comparator ["a"] [1]) 2
        [(⟨1, [("a", 1), ("n", 1)], []⟩ : Cursor), ⟨0, [("a", 1), ("n", 0)], []⟩]
      = .ok ([("a", 1), ("n", 1)] :: out) :=
  merge_tie_enumeration_order "a" 1 [] [] [] ⟨1, [("a", 1), ("n", 1)], []⟩
    ⟨0, [("a", 1), ("n", 0)], []⟩ 2
    (by decide)
    (by decide)
    (by intro c hc; exact absurd hc (List.not_mem_nil c))
    (by intro c hc; exact absurd hc (List.not_mem_nil c))
    rfl

end QuerySequence
